import Mathlib

/-!
Verification of `src/inactive-regions.ts` (vscode-clangd inactive-regions feature).

The TypeScript module is shallowly embedded here:
* `Uint32Array` buffers become `List Nat` (all stored values are already
  reduced modulo 2^32 by the typed array; the only in-place store the module
  performs is modelled with an explicit `% 2^32`).
* JavaScript values that may be `undefined` (out-of-bounds typed-array reads,
  the module-level index variables before capability resolution) become
  `Option Nat`; JS `==`/`===` comparisons and `+` on such values are modelled
  by `jsEqOpt`/`jsAdd`.  A `NaN` produced by adding `undefined` is also
  modelled as `none`: in this module such a value is only ever stored in the
  running accumulators on the final loop iteration and never compared with a
  number, so the two are observationally identical here.
* The two module-level `WeakMap`s and `vscode.window.visibleTextEditors`
  become an explicit `World` record; event handlers return the new `World`
  together with the list of `setDecorations` rendering requests they issued
  and the number of `computeInactiveRanges` (decode) calls they performed.
* Code that can throw (`new Uint32Array(negative)`, `TypedArray.set` past the
  end) returns `Option`.
-/

/-- JS `==` / `===` between two values each of which is a number or
`undefined` (`none`).  `undefined == undefined` is `true`; a number never
equals `undefined`. -/
def jsEqOpt : Option Nat → Option Nat → Bool
  | some a, some b => a == b
  | none, none => true
  | _, _ => false

/-- JS `+` on number-or-`undefined`: adding `undefined` yields `NaN`,
modelled as `none`. -/
def jsAdd : Option Nat → Option Nat → Option Nat
  | some a, some b => some (a + b)
  | _, _ => none

/-- `ToUint32` conversion performed by a store into a `Uint32Array`
(`undefined` converts to 0). -/
def toUint32 (v : Option Nat) : Nat := v.getD 0 % 2 ^ 32

/-- Number of iterations of a loop `for (i = 0; i < data.length / 5; i++)`:
JS `/` is real division, so the bound is `⌈length / 5⌉`. -/
def ceilDiv5 (len : Nat) : Nat := (len + 4) / 5

/-- `vscode.SemanticTokens`: an optional `resultId` and the packed data. -/
structure SemanticTokens where
  resultId : Option String
  data : List Nat
deriving Repr, DecidableEq

/-- `vscode.SemanticTokensEdit`. -/
structure SemanticTokensEdit where
  start : Nat
  deleteCount : Nat
  data : Option (List Nat)
deriving Repr, DecidableEq

/-- `vscode.SemanticTokensEdits`. -/
structure SemanticTokensEdits where
  resultId : Option String
  edits : List SemanticTokensEdit
deriving Repr, DecidableEq

/-- `vscode.Position` as constructed by this module.  Fields are
`Option Nat` because in the malformed-buffer corner the module can pass an
out-of-bounds read (or a sum involving one) to the constructor. -/
structure Position where
  line : Option Nat
  character : Option Nat
deriving Repr, DecidableEq

/-- `vscode.Range` as constructed by this module (a record of the two
constructor arguments). -/
structure Range where
  start : Position
  endPos : Position
deriving Repr, DecidableEq

/-- The two module-level index variables
`inactiveCodeTokenTypeIndex` / `inactiveCodeTokenTypeReplaceIndex`.
They are `let` declarations without initializer, hence `undefined` (`none`)
until `InactiveRegionsFeature.initialize` assigns them.  Following the spec's
design note they are modelled as an explicit configuration value. -/
structure TokenConfig where
  inactiveCodeTokenTypeIndex : Option Nat
  inactiveCodeTokenTypeReplaceIndex : Option Nat
deriving Repr, DecidableEq

/-- `capabilities.semanticTokensProvider.legend` (the part this module
reads). -/
structure SemanticTokensLegend where
  tokenTypes : List String
deriving Repr, DecidableEq

/-- The `for` loop in `InactiveRegionsFeature.initialize`: scans
`tokenTypes` by index and records the index of every entry equal to
`"comment"` (so the last occurrence wins). -/
def commentIndexLoop (tokenTypes : List String) : Option Nat :=
  (List.range tokenTypes.length).foldl
    (fun acc i => if tokenTypes.get? i = some "comment" then some i else acc)
    none

/-- `InactiveRegionsFeature.initialize` (the method named `initialize` in the
source): if the server advertises a semantic-tokens provider, resolve the
index of the `"comment"` token type and set the replacement index to the
legend length; otherwise leave both variables `undefined`. -/
def featureInit (provider : Option SemanticTokensLegend) : TokenConfig :=
  match provider with
  | none =>
      { inactiveCodeTokenTypeIndex := none, inactiveCodeTokenTypeReplaceIndex := none }
  | some legend =>
      { inactiveCodeTokenTypeIndex := commentIndexLoop legend.tokenTypes,
        inactiveCodeTokenTypeReplaceIndex := some legend.tokenTypes.length }

/-- The loop body of `replaceInactiveRanges`, folded over the token indices
`0 ≤ tokenIndex < data.length / 5` (JS real division, so `ceilDiv5`
iterations).  An out-of-bounds store on a `Uint32Array` is silently
dropped, which `List.set` also does. -/
def replaceInactiveRanges (cfg : TokenConfig) (tokens : SemanticTokens) : SemanticTokens :=
  { resultId := tokens.resultId,
    data :=
      (List.range (ceilDiv5 tokens.data.length)).foldl
        (fun d tokenIndex =>
          if jsEqOpt (d.get? (5 * tokenIndex + 3)) cfg.inactiveCodeTokenTypeIndex then
            d.set (5 * tokenIndex + 3) (toUint32 cfg.inactiveCodeTokenTypeReplaceIndex)
          else d)
        tokens.data }

/-- The loop of `computeInactiveRanges`: `remaining` counts the iterations
still to run (`ceilDiv5 data.length` in total), `tokenIndex` is the loop
variable, and the two accumulators are `lastLineNumber` /
`lastStartCharacter`. -/
def computeLoop (cfg : TokenConfig) (data : List Nat) :
    Nat → Nat → Option Nat → Option Nat → List Range
  | _, 0, _, _ => []
  | tokenIndex, remaining + 1, lastLineNumber, lastStartCharacter =>
      let offset := 5 * tokenIndex
      let deltaLine := data.get? offset
      let deltaCharacter := data.get? (offset + 1)
      let lineNumber := jsAdd lastLineNumber deltaLine
      let startCharacter :=
        if deltaLine = some 0 then jsAdd lastStartCharacter deltaCharacter
        else deltaCharacter
      let length := data.get? (offset + 2)
      let tokenTypeIndex := data.get? (offset + 3)
      let rest := computeLoop cfg data (tokenIndex + 1) remaining lineNumber startCharacter
      if jsEqOpt tokenTypeIndex cfg.inactiveCodeTokenTypeIndex then
        { start := { line := lineNumber, character := startCharacter },
          endPos := { line := lineNumber, character := jsAdd startCharacter length } } :: rest
      else rest

/-- `computeInactiveRanges`. -/
def computeInactiveRanges (cfg : TokenConfig) (tokens : SemanticTokens) : List Range :=
  computeLoop cfg tokens.data 0 (ceilDiv5 tokens.data.length) (some 0) (some 0)

/-- `Uint32Array.prototype.subarray(a, b)`: clamps both bounds to the array. -/
def subarray (src : List Nat) (a b : Nat) : List Nat :=
  (src.take b).drop a

/-- `Uint32Array.prototype.set(src, off)`: throws a `RangeError` (here
`none`) when the source does not fit, otherwise overwrites
`dest[off … off + src.length)`. -/
def typedSet (dest : List Nat) (off : Nat) (src : List Nat) : Option (List Nat) :=
  if off + src.length ≤ dest.length then
    some (dest.take off ++ src ++ dest.drop (off + src.length))
  else none

/-- The module's `copy` helper:
`dest.set(src.subarray(srcOffset, srcOffset + len), destOffset)`. -/
def copy (dest : List Nat) (destOffset : Nat) (src : List Nat) (srcOffset len : Nat) :
    Option (List Nat) :=
  typedSet dest destOffset (subarray src srcOffset (srcOffset + len))

/-- The `deltaLength` accumulation loop of `applyDelta`
(`edit.data ? edit.data.length : 0` minus `edit.deleteCount`, summed). -/
def deltaLength (edits : List SemanticTokensEdit) : Int :=
  edits.foldl
    (fun acc e =>
      acc + (match e.data with | some d => (d.length : Int) | none => 0)
        - (e.deleteCount : Int))
    0

/-- The `for (const edit of delta.edits)` loop of `applyDelta`, carrying
`destData`, `readIndex` and `insertIndex`. -/
def applyDeltaLoop (srcData : List Nat) :
    List SemanticTokensEdit → List Nat → Nat → Nat → Option (List Nat × Nat × Nat)
  | [], destData, readIndex, insertIndex => some (destData, readIndex, insertIndex)
  | edit :: rest, destData, readIndex, insertIndex =>
      let copyCount : Int := (edit.start : Int) - (readIndex : Int)
      let afterCopy : Option (List Nat × Nat) :=
        if 0 < copyCount then
          match copy destData insertIndex srcData readIndex copyCount.toNat with
          | some d => some (d, insertIndex + copyCount.toNat)
          | none => none
        else some (destData, insertIndex)
      match afterCopy with
      | none => none
      | some (destData1, insertIndex1) =>
          let afterInsert : Option (List Nat × Nat) :=
            match edit.data with
            | some ins =>
                match copy destData1 insertIndex1 ins 0 ins.length with
                | some d => some (d, insertIndex1 + ins.length)
                | none => none
            | none => some (destData1, insertIndex1)
          match afterInsert with
          | none => none
          | some (destData2, insertIndex2) =>
              applyDeltaLoop srcData rest destData2 (edit.start + edit.deleteCount) insertIndex2

/-- `applyDelta`.  `new Uint32Array(n)` with a negative `n` throws
(`none`); otherwise the freshly allocated zeroed buffer is filled by the
edit loop and the trailing copy. -/
def applyDelta (prev : SemanticTokens) (delta : SemanticTokensEdits) :
    Option SemanticTokens :=
  let srcData := prev.data
  let destLen : Int := (srcData.length : Int) + deltaLength delta.edits
  if destLen < 0 then none
  else
    match applyDeltaLoop srcData delta.edits (List.replicate destLen.toNat 0) 0 0 with
    | none => none
    | some (destData, readIndex, insertIndex) =>
        let final : Option (List Nat) :=
          if readIndex < srcData.length then
            copy destData insertIndex srcData readIndex (srcData.length - readIndex)
          else some destData
        match final with
        | none => none
        | some d => some { resultId := delta.resultId, data := d }

/-- A visible text editor: its identity and the identity of the document it
shows. -/
structure Editor where
  id : Nat
  document : Nat
deriving Repr, DecidableEq

/-- The module-level mutable state: the two `WeakMap`s keyed by document
identity, plus `vscode.window.visibleTextEditors`. -/
structure World where
  lastTokens : Nat → Option SemanticTokens
  lastInactiveRanges : Nat → Option (List Range)
  visibleEditors : List Editor

/-- One `editor.setDecorations(inactiveCodeDecorationType, ranges)` call. -/
structure RenderRequest where
  editor : Nat
  ranges : List Range
deriving Repr, DecidableEq

/-- Result of running an event handler: the updated module state, the
rendering requests issued, and how many times `computeInactiveRanges` was
invoked. -/
structure EventResult where
  state : World
  requests : List RenderRequest
  decodeCalls : Nat

/-- `applyInactiveRegions(editor)`: look up the cached ranges for the
editor's document and, when present (a `WeakMap` miss is `undefined`, and a
present array — even an empty one — is truthy), issue one `setDecorations`
request. -/
def applyInactiveRegions (st : World) (editor : Editor) : List RenderRequest :=
  match st.lastInactiveRanges editor.document with
  | some inactiveRanges => [{ editor := editor.id, ranges := inactiveRanges }]
  | none => []

/-- `applyInactiveRegionsToDocument(document)`: walk the visible editors and
re-apply for those showing `document`. -/
def applyInactiveRegionsToDocument (st : World) (document : Nat) : List RenderRequest :=
  st.visibleEditors.foldr
    (fun editor acc =>
      (if editor.document = document then applyInactiveRegions st editor else []) ++ acc)
    []

/-- The `onDidChangeVisibleTextEditors` handler registered in `activate`:
apply the cached ranges for every editor delivered by the event.  It never
touches the caches and never decodes. -/
def onDidChangeVisibleTextEditors (st : World) (editors : List Editor) : EventResult :=
  { state := st,
    requests := editors.foldr (fun editor acc => applyInactiveRegions st editor ++ acc) [],
    decodeCalls := 0 }

/-- `provideDocumentSemanticTokens`: cache the raw buffer, decode and cache
the inactive ranges, re-apply decorations to all visible editors of the
document, and hand the remapped copy downstream. -/
def provideDocumentSemanticTokens (cfg : TokenConfig) (st : World) (document : Nat)
    (tokens : SemanticTokens) : EventResult × SemanticTokens :=
  let st1 : World :=
    { st with
      lastTokens := fun d => if d = document then some tokens else st.lastTokens d,
      lastInactiveRanges := fun d =>
        if d = document then some (computeInactiveRanges cfg tokens)
        else st.lastInactiveRanges d }
  ({ state := st1,
     requests := applyInactiveRegionsToDocument st1 document,
     decodeCalls := 1 },
   replaceInactiveRanges cfg tokens)

/-- `provideDocumentSemanticTokensEdits`.  The payload is either full tokens
(`Sum.inl`, i.e. `isSemanticTokens` holds because `data` is present) or a
delta (`Sum.inr`).  On a cache miss the delta is returned unchanged; an
exception inside `applyDelta` aborts the handler (`none`). -/
def provideDocumentSemanticTokensEdits (cfg : TokenConfig) (st : World) (document : Nat)
    (previousResultId : String) (tokens : SemanticTokens ⊕ SemanticTokensEdits) :
    Option (EventResult × (SemanticTokens ⊕ SemanticTokensEdits)) :=
  match tokens with
  | Sum.inl full =>
      let r := provideDocumentSemanticTokens cfg st document full
      some (r.1, Sum.inl r.2)
  | Sum.inr delta =>
      match st.lastTokens document with
      | none => some ({ state := st, requests := [], decodeCalls := 0 }, Sum.inr delta)
      | some previousTokens =>
          if previousTokens.resultId ≠ some previousResultId then
            some ({ state := st, requests := [], decodeCalls := 0 }, Sum.inr delta)
          else
            match applyDelta previousTokens delta with
            | none => none
            | some full =>
                let r := provideDocumentSemanticTokens cfg st document full
                some (r.1, Sum.inl r.2)

/-!
## Spec-side definitions for the Delta Reconstructor claims

`spliceEditsLiteral` is the spec's words taken literally: materialize the
buffer as a mutable sequence and perform each edit in order as a splice at
offset `start` of the *current* sequence.  `spliceEditsFrom` is the amended
reading forced by the counterexample below: the splice offset is `start`
adjusted by the cumulative length change of the earlier edits (equivalently,
`start` is an offset into the *original* buffer, as the protocol defines
it). -/

/-- Delete `deleteCount` integers at offset `start` of `l`, then insert
`insertData` there. -/
def splice (l : List Nat) (start deleteCount : Nat) (insertData : List Nat) : List Nat :=
  l.take start ++ insertData ++ l.drop (start + deleteCount)

/-- The claim's literal reading: splice each edit in order at its raw
`start` offset. -/
def spliceEditsLiteral (l : List Nat) (edits : List SemanticTokensEdit) : List Nat :=
  edits.foldl (fun acc e => splice acc e.start e.deleteCount (e.data.getD [])) l

/-- The amended reading: splice each edit in order, the offset being
`start` shifted by the cumulative `insert − delete` length change of the
edits already performed. -/
def spliceEditsFrom : Int → List Nat → List SemanticTokensEdit → List Nat
  | _, l, [] => l
  | shift, l, e :: rest =>
      let ins := e.data.getD []
      spliceEditsFrom (shift + (ins.length : Int) - (e.deleteCount : Int))
        (splice l ((e.start : Int) + shift).toNat e.deleteCount ins) rest

/-- The delta precondition: edits sorted by ascending `start`,
non-overlapping (each edit begins no earlier than the previous edit's
deleted region ends) and within the bounds of the previous buffer. -/
def editsInOrder (srcLen : Nat) : Nat → List SemanticTokensEdit → Bool
  | _, [] => true
  | lo, e :: rest =>
      decide (lo ≤ e.start) && decide (e.start + e.deleteCount ≤ srcLen) &&
        editsInOrder srcLen (e.start + e.deleteCount) rest

/-- Functional description of the edit loop: for each edit emit the
unmodified run since the read cursor followed by the inserted data, and
return the final read cursor. -/
def gatherL (src : List Nat) : Nat → List SemanticTokensEdit → List Nat × Nat
  | r, [] => ([], r)
  | r, e :: rest =>
      let gl := gatherL src (e.start + e.deleteCount) rest
      ((src.drop r).take (e.start - r) ++ e.data.getD [] ++ gl.1, gl.2)

/-- Functional description of the whole of `applyDelta`'s data flow: the
loop output followed by the trailing unmodified suffix. -/
def gather (src : List Nat) (r : Nat) (edits : List SemanticTokensEdit) : List Nat :=
  (gatherL src r edits).1 ++ src.drop (gatherL src r edits).2

/-- Recursive form of `deltaLength`. -/
def deltaLengthRec : List SemanticTokensEdit → Int
  | [] => 0
  | e :: rest => ((e.data.getD []).length : Int) - (e.deleteCount : Int) + deltaLengthRec rest

lemma editsInOrder_cons {srcLen lo : Nat} {e : SemanticTokensEdit}
    {rest : List SemanticTokensEdit} :
    editsInOrder srcLen lo (e :: rest) = true ↔
      lo ≤ e.start ∧ e.start + e.deleteCount ≤ srcLen ∧
        editsInOrder srcLen (e.start + e.deleteCount) rest = true := by
  simp [editsInOrder, Bool.and_eq_true, decide_eq_true_eq, and_assoc]

lemma get?_of_lt (l : List Nat) (n : Nat) (h : n < l.length) :
    l.get? n = some (l.getD n 0) := by
  rcases hq : l.get? n with _ | v
  · rw [List.get?_eq_none] at hq; omega
  · rw [List.getD_eq_getElem?_getD, ← List.get?_eq_getElem?, hq]; rfl

lemma deltaLength_shift (edits : List SemanticTokensEdit) :
    ∀ a : Int,
      List.foldl
        (fun acc e =>
          acc + (match e.data with | some d => (d.length : Int) | none => 0)
            - (e.deleteCount : Int))
        a edits = a + deltaLengthRec edits := by
  induction edits with
  | nil => intro a; simp [deltaLengthRec]
  | cons e rest ih =>
      intro a
      have hd : (match e.data with | some d => (d.length : Int) | none => 0)
          = ((e.data.getD []).length : Int) := by
        cases e.data <;> rfl
      simp only [List.foldl_cons, ih, deltaLengthRec, hd]
      ring

lemma deltaLength_eq_rec (edits : List SemanticTokensEdit) :
    deltaLength edits = deltaLengthRec edits := by
  have := deltaLength_shift edits 0
  simpa [deltaLength] using this

lemma gatherL_snd_le (src : List Nat) :
    ∀ (edits : List SemanticTokensEdit) (r : Nat),
      editsInOrder src.length r edits = true → r ≤ src.length →
      (gatherL src r edits).2 ≤ src.length := by
  intro edits
  induction edits with
  | nil => intro r _ hr; exact hr
  | cons e rest ih =>
      intro r h hr
      rcases editsInOrder_cons.mp h with ⟨_, h2, h3⟩
      exact ih (e.start + e.deleteCount) h3 h2

lemma gatherL_fst_len (src : List Nat) :
    ∀ (edits : List SemanticTokensEdit) (r : Nat),
      editsInOrder src.length r edits = true → r ≤ src.length →
      ((gatherL src r edits).1.length : Int)
        = ((gatherL src r edits).2 : Int) - (r : Int) + deltaLengthRec edits := by
  intro edits
  induction edits with
  | nil => intro r _ _; simp [gatherL, deltaLengthRec]
  | cons e rest ih =>
      intro r h hr
      rcases editsInOrder_cons.mp h with ⟨h1, h2, h3⟩
      have ihr := ih (e.start + e.deleteCount) h3 h2
      have htake : ((src.drop r).take (e.start - r)).length = e.start - r := by
        rw [List.length_take, List.length_drop]
        omega
      simp only [gatherL, List.length_append, htake, deltaLengthRec]
      push_cast
      omega

lemma gather_len (src : List Nat) (edits : List SemanticTokensEdit) (r : Nat)
    (h : editsInOrder src.length r edits = true) (hr : r ≤ src.length) :
    ((gather src r edits).length : Int)
      = (src.length : Int) - (r : Int) + deltaLengthRec edits := by
  have h1 := gatherL_fst_len src edits r h hr
  have h2 := gatherL_snd_le src edits r h hr
  simp only [gather, List.length_append, List.length_drop]
  push_cast
  omega

lemma copy_into_pad (out : List Nat) (pad : Nat) (src : List Nat) (r c : Nat)
    (hrc : r + c ≤ src.length) (hcp : c ≤ pad) :
    copy (out ++ List.replicate pad 0) out.length src r c
      = some ((out ++ (src.drop r).take c) ++ List.replicate (pad - c) 0) := by
  have hsub : (src.take (r + c)).drop r = (src.drop r).take c := (List.take_drop r c src).symm
  have hlen : ((src.drop r).take c).length = c := by
    rw [List.length_take, List.length_drop]; omega
  unfold copy typedSet subarray
  rw [hsub]
  rw [if_pos (by simp [hlen, List.length_append, List.length_replicate]; omega)]
  congr 1
  rw [List.take_left, hlen, List.drop_append c]
  simp [List.drop_replicate, List.append_assoc]

lemma insert_into_pad (out : List Nat) (pad : Nat) (ins : List Nat)
    (hip : ins.length ≤ pad) :
    copy (out ++ List.replicate pad 0) out.length ins 0 ins.length
      = some ((out ++ ins) ++ List.replicate (pad - ins.length) 0) := by
  have h := copy_into_pad out pad ins 0 ins.length (by omega) hip
  simpa using h

lemma applyDeltaLoop_spec (src : List Nat) :
    ∀ (edits : List SemanticTokensEdit) (r : Nat) (out : List Nat) (pad : Nat),
      editsInOrder src.length r edits = true →
      r ≤ src.length →
      (gatherL src r edits).1.length ≤ pad →
      applyDeltaLoop src edits (out ++ List.replicate pad 0) r out.length
        = some (out ++ (gatherL src r edits).1
              ++ List.replicate (pad - (gatherL src r edits).1.length) 0,
            (gatherL src r edits).2,
            out.length + (gatherL src r edits).1.length) := by
  intro edits
  induction edits with
  | nil =>
      intro r out pad _ _ _
      simp [applyDeltaLoop, gatherL]
  | cons e rest ih =>
      intro r out pad h hr hpad
      rcases editsInOrder_cons.mp h with ⟨h1, h2, h3⟩
      have htake_len : ((src.drop r).take (e.start - r)).length = e.start - r := by
        rw [List.length_take, List.length_drop]; omega
      have hpad' : (e.start - r) + (e.data.getD []).length
          + (gatherL src (e.start + e.deleteCount) rest).1.length ≤ pad := by
        have : (gatherL src r (e :: rest)).1.length
            = (e.start - r) + ((e.data.getD []).length
              + (gatherL src (e.start + e.deleteCount) rest).1.length) := by
          simp [gatherL, htake_len, List.length_append]
        omega
      have hcopy :
          copy (out ++ List.replicate pad 0) out.length src r (e.start - r)
            = some ((out ++ (src.drop r).take (e.start - r))
                ++ List.replicate (pad - (e.start - r)) 0) :=
        copy_into_pad out pad src r (e.start - r) (by omega) (by omega)
      have hout1len : (out ++ (src.drop r).take (e.start - r)).length
          = out.length + (e.start - r) := by
        rw [List.length_append, htake_len]
      simp only [applyDeltaLoop]
      by_cases hc : (0 : Int) < (e.start : Int) - (r : Int)
      · have hct : ((e.start : Int) - (r : Int)).toNat = e.start - r := by omega
        cases hdata : e.data with
        | none =>
            have ihr := ih (e.start + e.deleteCount)
              (out ++ (src.drop r).take (e.start - r)) (pad - (e.start - r)) h3 h2
              (by simp [hdata] at hpad'; omega)
            rw [hout1len] at ihr
            simp only [if_pos hc, hct, hcopy, hdata, ihr, gatherL, Option.getD_none,
              Option.some.injEq, Prod.mk.injEq]
            refine ⟨?_, by trivial, ?_⟩
            · simp only [List.append_assoc, List.nil_append, List.append_nil,
                List.length_append, List.length_nil, htake_len]
              congr 4 <;> omega
            · simp only [List.length_append, List.length_nil, htake_len]
              omega
        | some ins =>
            have hbound : ins.length ≤ pad - (e.start - r) := by
              simp [hdata] at hpad'; omega
            have hins :
                copy ((out ++ (src.drop r).take (e.start - r))
                    ++ List.replicate (pad - (e.start - r)) 0)
                  (out.length + (e.start - r)) ins 0 ins.length
                  = some (((out ++ (src.drop r).take (e.start - r)) ++ ins)
                      ++ List.replicate (pad - (e.start - r) - ins.length) 0) := by
              have h0 := insert_into_pad (out ++ (src.drop r).take (e.start - r))
                (pad - (e.start - r)) ins hbound
              rw [hout1len] at h0
              exact h0
            have ihr := ih (e.start + e.deleteCount)
              ((out ++ (src.drop r).take (e.start - r)) ++ ins)
              (pad - (e.start - r) - ins.length) h3 h2
              (by simp [hdata] at hpad'; omega)
            have hout2len : ((out ++ (src.drop r).take (e.start - r)) ++ ins).length
                = out.length + (e.start - r) + ins.length := by
              simp only [List.length_append, htake_len]
            rw [hout2len] at ihr
            simp only [if_pos hc, hct, hcopy, hdata, hins, ihr, gatherL, Option.getD_some,
              Option.some.injEq, Prod.mk.injEq]
            refine ⟨?_, by trivial, ?_⟩
            · simp only [List.append_assoc, List.nil_append, List.append_nil,
                List.length_append, List.length_nil, htake_len]
              congr 5 <;> omega
            · simp only [List.length_append, List.length_nil, htake_len]
              omega
      · have he : e.start = r := by omega
        cases hdata : e.data with
        | none =>
            have ihr := ih (e.start + e.deleteCount) out pad h3 h2
              (by simp [hdata] at hpad'; omega)
            simp only [if_neg hc, hdata, ihr, gatherL, Option.getD_none,
              Option.some.injEq, Prod.mk.injEq]
            refine ⟨?_, by trivial, ?_⟩
            · simp only [he, Nat.sub_self, List.take_zero, List.nil_append,
                List.append_nil, List.append_assoc, List.length_append, List.length_nil]
            · simp only [he, Nat.sub_self, List.take_zero, List.nil_append,
                List.append_nil, List.length_append, List.length_nil]
        | some ins =>
            have hins :
                copy (out ++ List.replicate pad 0) out.length ins 0 ins.length
                  = some ((out ++ ins) ++ List.replicate (pad - ins.length) 0) :=
              insert_into_pad out pad ins (by simp [hdata] at hpad'; omega)
            have ihr := ih (e.start + e.deleteCount) (out ++ ins) (pad - ins.length) h3 h2
              (by simp [hdata] at hpad'; omega)
            rw [List.length_append] at ihr
            simp only [if_neg hc, hdata, hins, ihr, gatherL, Option.getD_some,
              Option.some.injEq, Prod.mk.injEq]
            refine ⟨?_, by trivial, ?_⟩
            · simp only [he, Nat.sub_self, List.take_zero, List.nil_append,
                List.append_nil, List.append_assoc, List.length_append, List.length_nil]
              congr 4 <;> omega
            · simp only [he, Nat.sub_self, List.take_zero, List.nil_append,
                List.append_nil, List.length_append, List.length_nil]
              omega

lemma copy_tail (outList : List Nat) (src : List Nat) (g : Nat) (hg : g ≤ src.length) :
    copy (outList ++ List.replicate (src.length - g) 0) outList.length src g (src.length - g)
      = some (outList ++ src.drop g) := by
  have h := copy_into_pad outList (src.length - g) src g (src.length - g)
    (by omega) (by omega)
  have htake : (src.drop g).take (src.length - g) = src.drop g := by
    apply List.take_of_length_le
    rw [List.length_drop]
  rw [h, htake]
  simp

lemma applyDelta_eq_gather (prev : SemanticTokens) (delta : SemanticTokensEdits)
    (h : editsInOrder prev.data.length 0 delta.edits = true) :
    applyDelta prev delta
      = some { resultId := delta.resultId, data := gather prev.data 0 delta.edits } := by
  have hrec := deltaLength_eq_rec delta.edits
  have hglen := gather_len prev.data delta.edits 0 h (Nat.zero_le _)
  have hle := gatherL_snd_le prev.data delta.edits 0 h (Nat.zero_le _)
  have hfst := gatherL_fst_len prev.data delta.edits 0 h (Nat.zero_le _)
  have hgl : (gather prev.data 0 delta.edits).length
      = (gatherL prev.data 0 delta.edits).1.length
        + (prev.data.length - (gatherL prev.data 0 delta.edits).2) := by
    simp only [gather, List.length_append, List.length_drop]
  have hnn : ¬ ((prev.data.length : Int) + deltaLength delta.edits < 0) := by
    rw [hrec]
    omega
  have hpad : ((prev.data.length : Int) + deltaLength delta.edits).toNat
      = (gatherL prev.data 0 delta.edits).1.length
        + (prev.data.length - (gatherL prev.data 0 delta.edits).2) := by
    rw [hrec]
    omega
  have hloop := applyDeltaLoop_spec prev.data delta.edits 0 []
    ((gatherL prev.data 0 delta.edits).1.length
      + (prev.data.length - (gatherL prev.data 0 delta.edits).2))
    h (Nat.zero_le _) (by omega)
  simp only [List.nil_append, List.length_nil, Nat.zero_add] at hloop
  have hpads : (gatherL prev.data 0 delta.edits).1.length
        + (prev.data.length - (gatherL prev.data 0 delta.edits).2)
        - (gatherL prev.data 0 delta.edits).1.length
      = prev.data.length - (gatherL prev.data 0 delta.edits).2 := by omega
  rw [hpads] at hloop
  unfold applyDelta
  rw [if_neg hnn, hpad, hloop]
  by_cases hcase : (gatherL prev.data 0 delta.edits).2 < prev.data.length
  · simp only [if_pos hcase]
    rw [copy_tail (gatherL prev.data 0 delta.edits).1 prev.data
      (gatherL prev.data 0 delta.edits).2 hle]
    rfl
  · simp only [if_neg hcase]
    have h2 : (gatherL prev.data 0 delta.edits).2 = prev.data.length := by omega
    have hz : prev.data.length - (gatherL prev.data 0 delta.edits).2 = 0 := by omega
    rw [hz]
    simp only [List.replicate_zero, List.append_nil, Option.some.injEq]
    congr 1
    simp only [gather, h2, List.drop_length, List.append_nil]

lemma spliceEditsFrom_eq_gather (src : List Nat) :
    ∀ (edits : List SemanticTokensEdit) (out : List Nat) (r : Nat) (shift : Int),
      editsInOrder src.length r edits = true →
      r ≤ src.length →
      shift = (out.length : Int) - (r : Int) →
      spliceEditsFrom shift (out ++ src.drop r) edits
        = out ++ (gatherL src r edits).1 ++ src.drop (gatherL src r edits).2 := by
  intro edits
  induction edits with
  | nil =>
      intro out r shift _ _ _
      simp [spliceEditsFrom, gatherL]
  | cons e rest ih =>
      intro out r shift h hr hshift
      rcases editsInOrder_cons.mp h with ⟨h1, h2, h3⟩
      have htake_len : ((src.drop r).take (e.start - r)).length = e.start - r := by
        rw [List.length_take, List.length_drop]; omega
      have hpos : ((e.start : Int) + shift).toNat = out.length + (e.start - r) := by
        omega
      have htake : (out ++ src.drop r).take (out.length + (e.start - r))
          = out ++ (src.drop r).take (e.start - r) := List.take_append _
      have hidx : out.length + (e.start - r) + e.deleteCount
          = out.length + ((e.start - r) + e.deleteCount) := by omega
      have hdrop : (out ++ src.drop r).drop (out.length + ((e.start - r) + e.deleteCount))
          = (src.drop r).drop ((e.start - r) + e.deleteCount) := List.drop_append _
      have hdd : (src.drop r).drop ((e.start - r) + e.deleteCount)
          = src.drop (e.start + e.deleteCount) := by
        rw [List.drop_drop]
        congr 1
        omega
      have hlen' : ((out ++ (src.drop r).take (e.start - r)) ++ e.data.getD []).length
          = out.length + (e.start - r) + (e.data.getD []).length := by
        simp only [List.length_append, htake_len]
      have hshift' : shift + ((e.data.getD []).length : Int) - (e.deleteCount : Int)
          = ((((out ++ (src.drop r).take (e.start - r)) ++ e.data.getD []).length : Nat) : Int)
            - ((e.start + e.deleteCount : Nat) : Int) := by
        rw [hlen']
        push_cast
        omega
      have ihr := ih ((out ++ (src.drop r).take (e.start - r)) ++ e.data.getD [])
        (e.start + e.deleteCount)
        (shift + ((e.data.getD []).length : Int) - (e.deleteCount : Int)) h3 h2 hshift'
      simp only [spliceEditsFrom, splice]
      rw [hpos, hidx, htake, hdrop, hdd]
      rw [ihr]
      simp [gatherL, List.append_assoc]

/-- C1, counterexample: the claim's literal reading is false.  For the
5-integer buffer `[10,11,12,13,14]` and the ascending, non-overlapping,
in-bounds edits `{start 0, delete 1}` and `{start 2, delete 1}`,
`applyDelta` produces `[11,13,14]` (offsets are into the original buffer),
while splicing each edit in order at its raw offset on the mutated
sequence produces `[11,12,14]`. -/
theorem applyDelta_literal_splice_cex :
    ([(10 : Nat), 11, 12, 13, 14].length % 5 = 0)
    ∧ editsInOrder [(10 : Nat), 11, 12, 13, 14].length 0
        [⟨0, 1, none⟩, ⟨2, 1, none⟩] = true
    ∧ Option.map SemanticTokens.data
        (applyDelta { resultId := some "r0", data := [10, 11, 12, 13, 14] }
          { resultId := some "r1", edits := [⟨0, 1, none⟩, ⟨2, 1, none⟩] })
        ≠ some (spliceEditsLiteral [10, 11, 12, 13, 14] [⟨0, 1, none⟩, ⟨2, 1, none⟩]) := by
  decide

/-- C1, amended: for a buffer whose length is a multiple of 5 and a delta
whose edits are ascending, non-overlapping and within bounds, `applyDelta`
returns exactly the buffer obtained by materializing the previous buffer
and performing each edit in order as a splice at offset `start` *adjusted
by the cumulative length change of the earlier edits* (equivalently,
`start` is an offset into the original buffer); and the result length is
the previous length plus `Σ (insertData length − deleteCount)`. -/
theorem applyDelta_refines_shifted_splice (prev : SemanticTokens)
    (delta : SemanticTokensEdits)
    (h5 : prev.data.length % 5 = 0)
    (hord : editsInOrder prev.data.length 0 delta.edits = true) :
    applyDelta prev delta
      = some { resultId := delta.resultId,
               data := spliceEditsFrom 0 prev.data delta.edits }
    ∧ ((spliceEditsFrom 0 prev.data delta.edits).length : Int)
      = (prev.data.length : Int) + deltaLength delta.edits := by
  have hsg : spliceEditsFrom 0 prev.data delta.edits = gather prev.data 0 delta.edits := by
    have hs := spliceEditsFrom_eq_gather prev.data delta.edits [] 0 0 hord
      (Nat.zero_le _) (by simp)
    simpa [gather] using hs
  constructor
  · rw [hsg]
    exact applyDelta_eq_gather prev delta hord
  · rw [hsg, gather_len prev.data delta.edits 0 hord (Nat.zero_le _),
      deltaLength_eq_rec]
    omega

/-- Witness for C1's amended theorem at a concrete input: a delta with a
replacing edit in the middle and a pure deletion at the end. -/
theorem applyDelta_refines_shifted_splice_witness :
    ((⟨some "a", [1, 2, 3, 4, 5]⟩ : SemanticTokens).data.length % 5 = 0)
    ∧ editsInOrder (⟨some "a", [1, 2, 3, 4, 5]⟩ : SemanticTokens).data.length 0
        [⟨1, 2, some [7, 8, 9]⟩, ⟨4, 1, some []⟩] = true
    ∧ applyDelta (⟨some "a", [1, 2, 3, 4, 5]⟩ : SemanticTokens)
        { resultId := some "b", edits := [⟨1, 2, some [7, 8, 9]⟩, ⟨4, 1, some []⟩] }
        = some { resultId := some "b",
                 data := spliceEditsFrom 0 [1, 2, 3, 4, 5]
                     [⟨1, 2, some [7, 8, 9]⟩, ⟨4, 1, some []⟩] } :=
  ⟨by decide, by decide,
    (applyDelta_refines_shifted_splice _ _ (by decide) (by decide)).1⟩

/-!
## Spec-side characterization of the Token Codec

`stepPos`/`posAfter` give the running absolute position accumulators of the
relative-offset decoding: the position is updated for *every* 5-tuple
(`deltaLine`, `deltaStartChar`), with `startChar` column-relative on the
same line and column-absolute after a line change. -/

/-- One accumulator update of the decoder. -/
def stepPos (p : Nat × Nat) (dl dc : Nat) : Nat × Nat :=
  (p.1 + dl, if dl = 0 then p.2 + dc else dc)

/-- Accumulator after processing `m` tuples starting at tuple `t` from
accumulator `p`. -/
def posAfter (data : List Nat) : Nat × Nat → Nat → Nat → Nat × Nat
  | p, _, 0 => p
  | p, t, m + 1 =>
      posAfter data (stepPos p (data.getD (5 * t) 0) (data.getD (5 * t + 1) 0)) (t + 1) m

/-- Absolute `(line, startChar)` of tuple `k` (accumulators start at 0). -/
def tokAbs (data : List Nat) (k : Nat) : Nat × Nat := posAfter data (0, 0) 0 (k + 1)

/-- The range emitted for an inactive tuple at absolute position `q` with
run length `len`. -/
def rangeFromPos (q : Nat × Nat) (len : Nat) : Range :=
  { start := { line := some q.1, character := some q.2 },
    endPos := { line := some q.1, character := some (q.2 + len) } }

/-- The decoded range of tuple `k`. -/
def decodedRangeAt (data : List Nat) (k : Nat) : Range :=
  rangeFromPos (tokAbs data k) (data.getD (5 * k + 2) 0)

/-- The tuple positions whose `typeIndex` field equals the resolved
inactive-category index. -/
def inactiveTokenIndices (cfg : TokenConfig) (data : List Nat) : List Nat :=
  (List.range (data.length / 5)).filter
    (fun k => jsEqOpt (data.get? (5 * k + 3)) cfg.inactiveCodeTokenTypeIndex)

/-- The spec's description of the decoder: walk the 5-tuples in order,
keep the running accumulators for every tuple, and emit a range exactly
for the tuples of the inactive category. -/
def decodeSpecForm (cfg : TokenConfig) (data : List Nat) : List Range :=
  (List.range (data.length / 5)).filterMap
    (fun k =>
      if jsEqOpt (data.get? (5 * k + 3)) cfg.inactiveCodeTokenTypeIndex
      then some (decodedRangeAt data k) else none)

lemma filterMapCongr {α β : Type} (l : List α) (f g : α → Option β)
    (h : ∀ a ∈ l, f a = g a) : l.filterMap f = l.filterMap g := by
  induction l with
  | nil => rfl
  | cons a l ih =>
      rw [List.filterMap_cons, List.filterMap_cons, h a (List.mem_cons_self a l),
        ih (fun b hb => h b (List.mem_cons_of_mem a hb))]

lemma computeLoop_spec (cfg : TokenConfig) (data : List Nat) :
    ∀ (r t : Nat) (p : Nat × Nat), 5 * (t + r) ≤ data.length →
      computeLoop cfg data t r (some p.1) (some p.2)
        = (List.range r).filterMap (fun m =>
            if jsEqOpt (data.get? (5 * (t + m) + 3)) cfg.inactiveCodeTokenTypeIndex
            then some (rangeFromPos (posAfter data p t (m + 1))
                (data.getD (5 * (t + m) + 2) 0))
            else none) := by
  intro r
  induction r with
  | zero => intro t p _; simp [computeLoop]
  | succ r ih =>
      intro t p hb
      have h0 : data.get? (5 * t) = some (data.getD (5 * t) 0) :=
        get?_of_lt _ _ (by omega)
      have h1 : data.get? (5 * t + 1) = some (data.getD (5 * t + 1) 0) :=
        get?_of_lt _ _ (by omega)
      have h2 : data.get? (5 * t + 2) = some (data.getD (5 * t + 2) 0) :=
        get?_of_lt _ _ (by omega)
      have h3 : data.get? (5 * t + 3) = some (data.getD (5 * t + 3) 0) :=
        get?_of_lt _ _ (by omega)
      have ihr := ih (t + 1) (stepPos p (data.getD (5 * t) 0) (data.getD (5 * t + 1) 0))
        (by omega)
      simp only [stepPos] at ihr
      simp only [computeLoop, h0, h1, h2, h3, jsAdd, Option.some.injEq]
      have hpush : (if data.getD (5 * t) 0 = 0
            then some (p.2 + data.getD (5 * t + 1) 0)
            else some (data.getD (5 * t + 1) 0))
          = some (if data.getD (5 * t) 0 = 0
            then p.2 + data.getD (5 * t + 1) 0
            else data.getD (5 * t + 1) 0) := (apply_ite some _ _ _).symm
      rw [hpush]
      simp only [jsAdd]
      rw [ihr]
      rw [List.range_succ_eq_map, List.filterMap_cons, List.filterMap_map]
      have hfun : ∀ m ∈ List.range r,
          ((fun m =>
            if jsEqOpt (data.get? (5 * (t + m) + 3)) cfg.inactiveCodeTokenTypeIndex
            then some (rangeFromPos (posAfter data p t (m + 1))
                (data.getD (5 * (t + m) + 2) 0))
            else none) ∘ Nat.succ) m
          = (fun m =>
            if jsEqOpt (data.get? (5 * (t + 1 + m) + 3)) cfg.inactiveCodeTokenTypeIndex
            then some (rangeFromPos
                (posAfter data
                  (p.1 + data.getD (5 * t) 0,
                    if data.getD (5 * t) 0 = 0
                    then p.2 + data.getD (5 * t + 1) 0
                    else data.getD (5 * t + 1) 0)
                  (t + 1) (m + 1))
                (data.getD (5 * (t + 1 + m) + 2) 0))
            else none) m := by
        intro m _
        have harg : t + (m + 1) = t + 1 + m := by omega
        have hstep : posAfter data p t (m + 1 + 1)
            = posAfter data
                (p.1 + data.getD (5 * t) 0,
                  if data.getD (5 * t) 0 = 0
                  then p.2 + data.getD (5 * t + 1) 0
                  else data.getD (5 * t + 1) 0)
                (t + 1) (m + 1) := rfl
        simp only [Function.comp, Nat.succ_eq_add_one, harg, hstep]
      rw [filterMapCongr _ _ _ hfun]
      have hhead : posAfter data p t 1
          = (p.1 + data.getD (5 * t) 0,
              if data.getD (5 * t) 0 = 0
              then p.2 + data.getD (5 * t + 1) 0
              else data.getD (5 * t + 1) 0) := rfl
      by_cases hjs : jsEqOpt (some (data.getD (5 * t + 3) 0))
          cfg.inactiveCodeTokenTypeIndex = true
      · simp only [Nat.add_zero, hjs, h3, if_pos, hhead, rangeFromPos]
      · simp only [Nat.add_zero, h3, hjs, Bool.false_eq_true, if_false, hhead]

lemma computeInactiveRanges_eq_specForm (cfg : TokenConfig) (rid : Option String)
    (data : List Nat) (h5 : data.length % 5 = 0) :
    computeInactiveRanges cfg { resultId := rid, data := data } = decodeSpecForm cfg data := by
  have hceil : ceilDiv5 data.length = data.length / 5 := by
    unfold ceilDiv5; omega
  have h := computeLoop_spec cfg data (data.length / 5) 0 (0, 0) (by omega)
  unfold computeInactiveRanges
  simp only [hceil]
  unfold decodeSpecForm decodedRangeAt tokAbs
  simpa [Nat.zero_add] using h

lemma filterMap_if_eq_map_filter {α β : Type} (l : List α) (p : α → Bool) (f : α → β) :
    (l.filterMap fun a => if p a then some (f a) else none)
      = (l.filter p).map f := by
  induction l with
  | nil => rfl
  | cons a l ih =>
      rw [List.filterMap_cons, List.filter_cons]
      by_cases hp : p a
      · simp only [hp, if_true, List.map_cons, ih]
      · simp only [hp, Bool.false_eq_true, if_false, ih]

lemma replaceFold_length (cfg : TokenConfig) (data : List Nat) :
    ∀ n : Nat,
      ((List.range n).foldl
        (fun d tokenIndex =>
          if jsEqOpt (d.get? (5 * tokenIndex + 3)) cfg.inactiveCodeTokenTypeIndex then
            d.set (5 * tokenIndex + 3) (toUint32 cfg.inactiveCodeTokenTypeReplaceIndex)
          else d)
        data).length = data.length := by
  intro n
  induction n with
  | zero => rfl
  | succ n ih =>
      rw [List.range_succ, List.foldl_append, List.foldl_cons, List.foldl_nil]
      by_cases hjs : jsEqOpt
          (((List.range n).foldl
            (fun d tokenIndex =>
              if jsEqOpt (d.get? (5 * tokenIndex + 3)) cfg.inactiveCodeTokenTypeIndex then
                d.set (5 * tokenIndex + 3) (toUint32 cfg.inactiveCodeTokenTypeReplaceIndex)
              else d)
            data).get? (5 * n + 3)) cfg.inactiveCodeTokenTypeIndex = true
      · simp only [hjs, if_true, List.length_set, ih]
      · simp only [hjs, Bool.false_eq_true, if_false, ih]

lemma replaceFold_get? (cfg : TokenConfig) (data : List Nat) :
    ∀ (n : Nat) (j : Nat), j < data.length →
      ((List.range n).foldl
        (fun d tokenIndex =>
          if jsEqOpt (d.get? (5 * tokenIndex + 3)) cfg.inactiveCodeTokenTypeIndex then
            d.set (5 * tokenIndex + 3) (toUint32 cfg.inactiveCodeTokenTypeReplaceIndex)
          else d)
        data).get? j
      = if j % 5 = 3 ∧ j / 5 < n
            ∧ jsEqOpt (data.get? j) cfg.inactiveCodeTokenTypeIndex = true
        then some (toUint32 cfg.inactiveCodeTokenTypeReplaceIndex)
        else data.get? j := by
  intro n
  induction n with
  | zero =>
      intro j _
      rw [if_neg (by omega)]
      rfl
  | succ n ih =>
      intro j hj
      rw [List.range_succ, List.foldl_append, List.foldl_cons, List.foldl_nil]
      have hDlen := replaceFold_length cfg data n
      have hDread :
          ((List.range n).foldl
            (fun d tokenIndex =>
              if jsEqOpt (d.get? (5 * tokenIndex + 3)) cfg.inactiveCodeTokenTypeIndex then
                d.set (5 * tokenIndex + 3) (toUint32 cfg.inactiveCodeTokenTypeReplaceIndex)
              else d)
            data).get? (5 * n + 3) = data.get? (5 * n + 3) := by
        by_cases hin : 5 * n + 3 < data.length
        · rw [ih (5 * n + 3) hin, if_neg (fun hcontra => absurd hcontra.2.1 (by omega))]
        · rw [List.get?_eq_none.mpr (by rw [hDlen]; omega), List.get?_eq_none.mpr (by omega)]
      simp only [hDread]
      by_cases hjs : jsEqOpt (data.get? (5 * n + 3))
          cfg.inactiveCodeTokenTypeIndex = true
      · simp only [hjs, if_true]
        by_cases hsame : j = 5 * n + 3
        · subst hsame
          rw [List.get?_set_eq_of_lt _ (by omega), if_pos (by exact ⟨by omega, by omega, hjs⟩)]
        · rw [List.get?_set_ne _ _ (fun hcontra => hsame hcontra.symm), ih j hj]
          have hcond : (j % 5 = 3 ∧ j / 5 < n + 1
                ∧ jsEqOpt (data.get? j) cfg.inactiveCodeTokenTypeIndex = true)
              ↔ (j % 5 = 3 ∧ j / 5 < n
                ∧ jsEqOpt (data.get? j) cfg.inactiveCodeTokenTypeIndex = true) := by
            constructor
            · rintro ⟨ha, hb, hc⟩
              refine ⟨ha, ?_, hc⟩
              rcases Nat.lt_succ_iff_lt_or_eq.mp hb with hlt | heq
              · exact hlt
              · exfalso; apply hsame; omega
            · rintro ⟨ha, hb, hc⟩; exact ⟨ha, by omega, hc⟩
          rw [if_congr hcond rfl rfl]
      · simp only [hjs, Bool.false_eq_true, if_false]
        rw [ih j hj]
        have hcond : (j % 5 = 3 ∧ j / 5 < n + 1
              ∧ jsEqOpt (data.get? j) cfg.inactiveCodeTokenTypeIndex = true)
            ↔ (j % 5 = 3 ∧ j / 5 < n
              ∧ jsEqOpt (data.get? j) cfg.inactiveCodeTokenTypeIndex = true) := by
          constructor
          · rintro ⟨ha, hb, hc⟩
            refine ⟨ha, ?_, hc⟩
            rcases Nat.lt_succ_iff_lt_or_eq.mp hb with hlt | heq
            · exact hlt
            · exfalso
              apply hjs
              have : j = 5 * n + 3 := by omega
              rw [← this]
              exact hc
          · rintro ⟨ha, hb, hc⟩; exact ⟨ha, by omega, hc⟩
        rw [if_congr hcond rfl rfl]

lemma replace_data_length (cfg : TokenConfig) (tokens : SemanticTokens) :
    (replaceInactiveRanges cfg tokens).data.length = tokens.data.length :=
  replaceFold_length cfg tokens.data (ceilDiv5 tokens.data.length)

lemma replace_data_get? (cfg : TokenConfig) (tokens : SemanticTokens) (j : Nat)
    (hj : j < tokens.data.length) :
    (replaceInactiveRanges cfg tokens).data.get? j
      = if j % 5 = 3 ∧ jsEqOpt (tokens.data.get? j) cfg.inactiveCodeTokenTypeIndex = true
        then some (toUint32 cfg.inactiveCodeTokenTypeReplaceIndex)
        else tokens.data.get? j := by
  have h := replaceFold_get? cfg tokens.data (ceilDiv5 tokens.data.length) j hj
  have hlt : j / 5 < ceilDiv5 tokens.data.length := by
    unfold ceilDiv5; omega
  have hiff : (j % 5 = 3 ∧ j / 5 < ceilDiv5 tokens.data.length
        ∧ jsEqOpt (tokens.data.get? j) cfg.inactiveCodeTokenTypeIndex = true)
      ↔ (j % 5 = 3 ∧ jsEqOpt (tokens.data.get? j) cfg.inactiveCodeTokenTypeIndex = true) :=
    ⟨fun ⟨a, _, c⟩ => ⟨a, c⟩, fun ⟨a, c⟩ => ⟨a, hlt, c⟩⟩
  rw [replaceInactiveRanges] at *
  rw [h, if_congr hiff rfl rfl]

/-- C2: for a well-formed buffer, decoding walks the 5-tuples in order with
running line and startChar accumulators initialized to 0 and updated for
every tuple (`decodeSpecForm`/`posAfter`), emitting a range exactly at the
inactive tuples; and on the concrete buffer
`[0,5,3,7,0, 0,3,4,7,0, 1,2,6,7,0]` with inactive index 7 it yields
exactly the ranges (0,5)-(0,8), (0,8)-(0,12) and (1,2)-(1,8). -/
theorem computeInactiveRanges_decodes (cfg : TokenConfig) (rid : Option String)
    (data : List Nat) (h5 : data.length % 5 = 0) :
    computeInactiveRanges cfg { resultId := rid, data := data } = decodeSpecForm cfg data
    ∧ computeInactiveRanges
        { inactiveCodeTokenTypeIndex := some 7, inactiveCodeTokenTypeReplaceIndex := some 8 }
        { resultId := none, data := [0, 5, 3, 7, 0, 0, 3, 4, 7, 0, 1, 2, 6, 7, 0] }
      = [{ start := { line := some 0, character := some 5 },
           endPos := { line := some 0, character := some 8 } },
         { start := { line := some 0, character := some 8 },
           endPos := { line := some 0, character := some 12 } },
         { start := { line := some 1, character := some 2 },
           endPos := { line := some 1, character := some 8 } }] :=
  ⟨computeInactiveRanges_eq_specForm cfg rid data h5, by decide⟩

/-- Witness for C2 at the concrete buffer from the claim. -/
theorem computeInactiveRanges_decodes_witness :
    ([(0 : Nat), 5, 3, 7, 0, 0, 3, 4, 7, 0, 1, 2, 6, 7, 0].length % 5 = 0)
    ∧ computeInactiveRanges
        { inactiveCodeTokenTypeIndex := some 7, inactiveCodeTokenTypeReplaceIndex := some 8 }
        { resultId := none, data := [0, 5, 3, 7, 0, 0, 3, 4, 7, 0, 1, 2, 6, 7, 0] }
      = decodeSpecForm
          { inactiveCodeTokenTypeIndex := some 7, inactiveCodeTokenTypeReplaceIndex := some 8 }
          [0, 5, 3, 7, 0, 0, 3, 4, 7, 0, 1, 2, 6, 7, 0] :=
  ⟨by decide,
    (computeInactiveRanges_decodes
      { inactiveCodeTokenTypeIndex := some 7, inactiveCodeTokenTypeReplaceIndex := some 8 }
      none [0, 5, 3, 7, 0, 0, 3, 4, 7, 0, 1, 2, 6, 7, 0] (by decide)).1⟩

/-- C3: for a well-formed buffer, decoding emits a range exactly at the
tuple positions whose `typeIndex` equals the resolved inactive index
(`inactiveTokenIndices`), the remapped buffer has the same length, and at
every integer position the remapped buffer carries the sentinel index
exactly at the matching `typeIndex` fields and the original integer
everywhere else. -/
theorem decode_remap_agreement (cfg : TokenConfig) (rid : Option String) (data : List Nat)
    (h5 : data.length % 5 = 0) :
    computeInactiveRanges cfg { resultId := rid, data := data }
      = (inactiveTokenIndices cfg data).map (decodedRangeAt data)
    ∧ (replaceInactiveRanges cfg { resultId := rid, data := data }).data.length = data.length
    ∧ (∀ j, j < data.length →
        (replaceInactiveRanges cfg { resultId := rid, data := data }).data.get? j
          = if j % 5 = 3 ∧ jsEqOpt (data.get? j) cfg.inactiveCodeTokenTypeIndex = true
            then some (toUint32 cfg.inactiveCodeTokenTypeReplaceIndex)
            else data.get? j) := by
  refine ⟨?_, replace_data_length cfg _, fun j hj => replace_data_get? cfg _ j hj⟩
  rw [computeInactiveRanges_eq_specForm cfg rid data h5]
  unfold decodeSpecForm inactiveTokenIndices
  exact filterMap_if_eq_map_filter _ _ _

/-- Witness for C3 at a concrete buffer with one inactive and one ordinary
token. -/
theorem decode_remap_agreement_witness :
    computeInactiveRanges
        { inactiveCodeTokenTypeIndex := some 7, inactiveCodeTokenTypeReplaceIndex := some 9 }
        { resultId := some "x", data := [0, 5, 3, 7, 0, 0, 3, 4, 2, 0] }
      = (inactiveTokenIndices
          { inactiveCodeTokenTypeIndex := some 7, inactiveCodeTokenTypeReplaceIndex := some 9 }
          [0, 5, 3, 7, 0, 0, 3, 4, 2, 0]).map
          (decodedRangeAt [0, 5, 3, 7, 0, 0, 3, 4, 2, 0])
    ∧ (replaceInactiveRanges
        { inactiveCodeTokenTypeIndex := some 7, inactiveCodeTokenTypeReplaceIndex := some 9 }
        { resultId := some "x", data := [0, 5, 3, 7, 0, 0, 3, 4, 2, 0] }).data.get? 3
      = some (toUint32 (some 9)) := by
  have h := decode_remap_agreement
    { inactiveCodeTokenTypeIndex := some 7, inactiveCodeTokenTypeReplaceIndex := some 9 }
    (some "x") [0, 5, 3, 7, 0, 0, 3, 4, 2, 0] (by decide)
  refine ⟨h.1, ?_⟩
  rw [h.2.2 3 (by decide)]
  decide

/-- C8: a well-formed buffer containing no tuple of the inactive category
is left exactly as it is by the remap, and decodes to no ranges. -/
theorem remap_noop_on_clean_buffer (cfg : TokenConfig) (rid : Option String)
    (data : List Nat) (h5 : data.length % 5 = 0)
    (hclean : ∀ k, k < data.length / 5 →
      jsEqOpt (data.get? (5 * k + 3)) cfg.inactiveCodeTokenTypeIndex = false) :
    replaceInactiveRanges cfg { resultId := rid, data := data }
      = { resultId := rid, data := data }
    ∧ computeInactiveRanges cfg { resultId := rid, data := data } = [] := by
  constructor
  · have hdata : (replaceInactiveRanges cfg { resultId := rid, data := data }).data = data := by
      apply List.ext
      intro j
      by_cases hj : j < data.length
      · rw [replace_data_get? cfg _ j hj]
        rw [if_neg]
        rintro ⟨h3, hq⟩
        have hk : 5 * (j / 5) + 3 = j := by omega
        have := hclean (j / 5) (by omega)
        rw [hk] at this
        rw [this] at hq
        exact Bool.false_ne_true hq
      · have hlen := replace_data_length cfg { resultId := rid, data := data }
        dsimp only at hlen
        rw [List.get?_eq_none.mpr (by rw [hlen]; omega),
          List.get?_eq_none.mpr (by omega)]
    have hfull : replaceInactiveRanges cfg { resultId := rid, data := data }
        = { resultId := (replaceInactiveRanges cfg { resultId := rid, data := data }).resultId,
            data := (replaceInactiveRanges cfg { resultId := rid, data := data }).data } := rfl
    rw [hfull, hdata]
    rfl
  · rw [computeInactiveRanges_eq_specForm cfg rid data h5]
    unfold decodeSpecForm
    rw [List.filterMap_eq_nil]
    intro k hk
    rw [if_neg]
    intro hq
    have := hclean k (List.mem_range.mp hk)
    rw [this] at hq
    exact Bool.false_ne_true hq

/-- Witness for C8 at a concrete clean buffer. -/
theorem remap_noop_on_clean_buffer_witness :
    replaceInactiveRanges
        { inactiveCodeTokenTypeIndex := some 7, inactiveCodeTokenTypeReplaceIndex := some 9 }
        { resultId := some "x", data := [0, 5, 3, 2, 0, 0, 3, 4, 1, 0] }
      = { resultId := some "x", data := [0, 5, 3, 2, 0, 0, 3, 4, 1, 0] }
    ∧ computeInactiveRanges
        { inactiveCodeTokenTypeIndex := some 7, inactiveCodeTokenTypeReplaceIndex := some 9 }
        { resultId := some "x", data := [0, 5, 3, 2, 0, 0, 3, 4, 1, 0] } = [] :=
  remap_noop_on_clean_buffer
    { inactiveCodeTokenTypeIndex := some 7, inactiveCodeTokenTypeReplaceIndex := some 9 }
    (some "x") [0, 5, 3, 2, 0, 0, 3, 4, 1, 0] (by decide) (by decide)

lemma commentFold_range_succ (tokenTypes : List String) (n : Nat) (acc : Option Nat) :
    (List.range (n + 1)).foldl
        (fun acc i => if tokenTypes.get? i = some "comment" then some i else acc) acc
      = if tokenTypes.get? n = some "comment" then some n
        else (List.range n).foldl
          (fun acc i => if tokenTypes.get? i = some "comment" then some i else acc) acc := by
  rw [List.range_succ, List.foldl_append, List.foldl_cons, List.foldl_nil]

lemma commentIndexLoop_unique (tokenTypes : List String) (i : Nat)
    (hi : tokenTypes.get? i = some "comment")
    (huniq : ∀ j, j ≠ i → tokenTypes.get? j ≠ some "comment") :
    commentIndexLoop tokenTypes = some i := by
  have hil : i < tokenTypes.length := by
    rcases List.get?_eq_some.mp hi with ⟨h, _⟩
    exact h
  have key : ∀ n : Nat, i < n → n ≤ tokenTypes.length →
      (List.range n).foldl
        (fun acc j => if tokenTypes.get? j = some "comment" then some j else acc) none
      = some i := by
    intro n
    induction n with
    | zero => intro h _; omega
    | succ n ih =>
        intro hin _
        rw [commentFold_range_succ]
        by_cases hieq : i = n
        · subst hieq
          rw [if_pos hi]
        · have hne : tokenTypes.get? n ≠ some "comment" := huniq n (fun h => hieq h.symm)
          rw [if_neg hne]
          exact ih (by omega) (by omega)
  exact key tokenTypes.length hil (Nat.le_refl _)

/-- C6: when the server advertises a legend, capability resolution records
the index of the token type named "comment" as the inactive index and the
legend length as the sentinel index; when it does not, both stay
unresolved and the feature is inert: no well-formed buffer decodes to any
range, and the remap is the identity on every buffer. -/
theorem legend_resolution_and_inert :
    (∀ (legend : SemanticTokensLegend) (i : Nat),
        legend.tokenTypes.get? i = some "comment" →
        (∀ j, j ≠ i → legend.tokenTypes.get? j ≠ some "comment") →
        featureInit (some legend)
          = { inactiveCodeTokenTypeIndex := some i,
              inactiveCodeTokenTypeReplaceIndex := some legend.tokenTypes.length })
    ∧ featureInit none
        = { inactiveCodeTokenTypeIndex := none, inactiveCodeTokenTypeReplaceIndex := none }
    ∧ (∀ (rid : Option String) (data : List Nat), data.length % 5 = 0 →
        computeInactiveRanges (featureInit none) { resultId := rid, data := data } = [])
    ∧ (∀ tokens : SemanticTokens, replaceInactiveRanges (featureInit none) tokens = tokens) := by
  refine ⟨?_, rfl, ?_, ?_⟩
  · intro legend i hi huniq
    simp only [featureInit]
    rw [commentIndexLoop_unique legend.tokenTypes i hi huniq]
  · intro rid data h5
    rw [computeInactiveRanges_eq_specForm _ rid data h5]
    unfold decodeSpecForm
    rw [List.filterMap_eq_nil]
    intro k hk
    rw [if_neg]
    intro hq
    have hkl := List.mem_range.mp hk
    rw [get?_of_lt data (5 * k + 3) (by omega)] at hq
    have hfalse : jsEqOpt (some (data.getD (5 * k + 3) 0))
        (featureInit none).inactiveCodeTokenTypeIndex = false := rfl
    rw [hfalse] at hq
    exact Bool.false_ne_true hq
  · intro tokens
    have hlen := replace_data_length (featureInit none) tokens
    have hdata : (replaceInactiveRanges (featureInit none) tokens).data = tokens.data := by
      apply List.ext
      intro j
      by_cases hj : j < tokens.data.length
      · rw [replace_data_get? (featureInit none) tokens j hj, if_neg]
        rintro ⟨h3, hq⟩
        rw [get?_of_lt tokens.data j hj] at hq
        have hfalse : jsEqOpt (some (tokens.data.getD j 0))
            (featureInit none).inactiveCodeTokenTypeIndex = false := rfl
        rw [hfalse] at hq
        exact Bool.false_ne_true hq
      · rw [List.get?_eq_none.mpr (by rw [hlen]; omega),
          List.get?_eq_none.mpr (by omega)]
    have hfull : replaceInactiveRanges (featureInit none) tokens
        = { resultId := (replaceInactiveRanges (featureInit none) tokens).resultId,
            data := (replaceInactiveRanges (featureInit none) tokens).data } := rfl
    rw [hfull, hdata]
    rfl

/-- Witness for C6: a two-entry legend resolves to index 1 and sentinel 2;
with no legend a well-formed buffer decodes to nothing. -/
theorem legend_resolution_witness :
    featureInit (some { tokenTypes := ["keyword", "comment"] })
      = { inactiveCodeTokenTypeIndex := some 1, inactiveCodeTokenTypeReplaceIndex := some 2 }
    ∧ computeInactiveRanges (featureInit none)
        { resultId := none, data := [0, 0, 1, 1, 0] } = [] :=
  ⟨legend_resolution_and_inert.1 { tokenTypes := ["keyword", "comment"] } 1 (by decide)
      (fun j hj => by
        match j with
        | 0 => decide
        | 1 => exact absurd rfl hj
        | n + 2 =>
            rw [List.get?_eq_none.mpr (by show 2 ≤ n + 2; omega)]
            simp),
    legend_resolution_and_inert.2.2.1 none [0, 0, 1, 1, 0] (by decide)⟩

/-- C4: on a cache miss (no cached buffer for the document, or a cached
resultId different from the supplied previousResultId) the delta handler
returns the delta object unchanged, issues no rendering request, performs
no decode, and leaves the whole module state — hence every document's
cached buffer and cached ranges — untouched. -/
theorem delta_cache_miss_returns_delta (cfg : TokenConfig) (st : World) (document : Nat)
    (previousResultId : String) (delta : SemanticTokensEdits)
    (hmiss : st.lastTokens document = none
      ∨ ∀ prev, st.lastTokens document = some prev →
          prev.resultId ≠ some previousResultId) :
    provideDocumentSemanticTokensEdits cfg st document previousResultId (Sum.inr delta)
      = some ({ state := st, requests := [], decodeCalls := 0 }, Sum.inr delta) := by
  cases hprev : st.lastTokens document with
  | none => simp only [provideDocumentSemanticTokensEdits, hprev]
  | some prev =>
      rcases hmiss with hnone | hne
      · rw [hprev] at hnone
        exact absurd hnone (by simp)
      · simp only [provideDocumentSemanticTokensEdits, hprev,
          if_pos (hne prev hprev)]

/-- Witness for C4 with an empty cache. -/
theorem delta_cache_miss_witness :
    provideDocumentSemanticTokensEdits
        { inactiveCodeTokenTypeIndex := none, inactiveCodeTokenTypeReplaceIndex := none }
        { lastTokens := fun _ => none, lastInactiveRanges := fun _ => none,
          visibleEditors := [] }
        0 "x" (Sum.inr { resultId := none, edits := [] })
      = some ({ state := { lastTokens := fun _ => none, lastInactiveRanges := fun _ => none,
                           visibleEditors := [] },
                requests := [], decodeCalls := 0 },
          Sum.inr { resultId := none, edits := [] }) :=
  delta_cache_miss_returns_delta _ _ 0 "x" _ (Or.inl rfl)

/-- C5: the full-tokens handler caches the input buffer in its original
encoding (the cached entry is the unmutated input itself) and returns
`replaceInactiveRanges` of it: a buffer of the same length that carries
the sentinel index exactly at the inactive `typeIndex` fields and the
original integer everywhere else. -/
theorem full_tokens_cache_and_remap (cfg : TokenConfig) (st : World) (document : Nat)
    (tokens : SemanticTokens) :
    (provideDocumentSemanticTokens cfg st document tokens).1.state.lastTokens document
        = some tokens
    ∧ (provideDocumentSemanticTokens cfg st document tokens).2
        = replaceInactiveRanges cfg tokens
    ∧ (replaceInactiveRanges cfg tokens).resultId = tokens.resultId
    ∧ (replaceInactiveRanges cfg tokens).data.length = tokens.data.length
    ∧ ∀ j, j < tokens.data.length →
        (replaceInactiveRanges cfg tokens).data.get? j
          = if j % 5 = 3 ∧ jsEqOpt (tokens.data.get? j) cfg.inactiveCodeTokenTypeIndex = true
            then some (toUint32 cfg.inactiveCodeTokenTypeReplaceIndex)
            else tokens.data.get? j := by
  refine ⟨?_, rfl, rfl, replace_data_length cfg tokens,
    fun j hj => replace_data_get? cfg tokens j hj⟩
  simp [provideDocumentSemanticTokens]

/-- Witness for C5: the cached entry is the original buffer and the
remapped copy carries the sentinel at position 3. -/
theorem full_tokens_cache_and_remap_witness :
    (provideDocumentSemanticTokens ⟨some 1, some 3⟩
        ⟨fun _ => none, fun _ => none, []⟩ 0
        ⟨some "t", [0, 0, 2, 1, 0]⟩).1.state.lastTokens 0
      = some ⟨some "t", [0, 0, 2, 1, 0]⟩
    ∧ (replaceInactiveRanges ⟨some 1, some 3⟩ ⟨some "t", [0, 0, 2, 1, 0]⟩).data.get? 3
      = some (toUint32 (some 3)) := by
  have h := full_tokens_cache_and_remap ⟨some 1, some 3⟩
    ⟨fun _ => none, fun _ => none, []⟩ 0 ⟨some "t", [0, 0, 2, 1, 0]⟩
  refine ⟨h.1, ?_⟩
  rw [h.2.2.2.2 3 (by decide)]
  decide

/-- C7, counterexample: a payload whose buffer has length 7 (not a
multiple of 5) is *not* treated as fatal: `provideDocumentSemanticTokens`
completes normally and overwrites the cached buffer of the document with
the malformed payload, so the previously cached state is not left
untouched. -/
theorem malformed_buffer_cex :
    ((⟨some "new", [0, 0, 2, 1, 0, 0, 1]⟩ : SemanticTokens).data.length % 5 ≠ 0)
    ∧ (provideDocumentSemanticTokens ⟨some 1, some 3⟩
        ⟨fun d => if d = 0 then some ⟨some "old", [0, 0, 1, 1, 0]⟩ else none,
          fun d => if d = 0 then some [] else none, []⟩
        0 ⟨some "new", [0, 0, 2, 1, 0, 0, 1]⟩).1.state.lastTokens 0
      = some ⟨some "new", [0, 0, 2, 1, 0, 0, 1]⟩
    ∧ (provideDocumentSemanticTokens ⟨some 1, some 3⟩
        ⟨fun d => if d = 0 then some ⟨some "old", [0, 0, 1, 1, 0]⟩ else none,
          fun d => if d = 0 then some [] else none, []⟩
        0 ⟨some "new", [0, 0, 2, 1, 0, 0, 1]⟩).1.state.lastTokens 0
      ≠ (⟨fun d => if d = 0 then some ⟨some "old", [0, 0, 1, 1, 0]⟩ else none,
          fun d => if d = 0 then some [] else none, []⟩ : World).lastTokens 0 := by
  refine ⟨by decide, by decide, by decide⟩

/-- C7, amended: a payload whose buffer length is not a multiple of 5 is
processed like any other payload: the handler completes (no abort), the
document's cached buffer and cached ranges are overwritten with the
malformed payload and its decode, and the remapped copy is returned. -/
theorem malformed_buffer_processed (cfg : TokenConfig) (st : World) (document : Nat)
    (tokens : SemanticTokens) (hmal : tokens.data.length % 5 ≠ 0) :
    (provideDocumentSemanticTokens cfg st document tokens).1.state.lastTokens document
        = some tokens
    ∧ (provideDocumentSemanticTokens cfg st document tokens).1.state.lastInactiveRanges
        document = some (computeInactiveRanges cfg tokens)
    ∧ (provideDocumentSemanticTokens cfg st document tokens).2
        = replaceInactiveRanges cfg tokens := by
  refine ⟨?_, ?_, rfl⟩ <;> simp [provideDocumentSemanticTokens]

/-- Witness for C7's amended theorem at the length-7 payload. -/
theorem malformed_buffer_processed_witness :
    (provideDocumentSemanticTokens ⟨some 1, some 3⟩ ⟨fun _ => none, fun _ => none, []⟩ 0
        ⟨some "new", [0, 0, 2, 1, 0, 0, 1]⟩).1.state.lastTokens 0
      = some ⟨some "new", [0, 0, 2, 1, 0, 0, 1]⟩ :=
  (malformed_buffer_processed _ _ 0 _ (by decide)).1

/-- C9: a visible-editors-change event delivering one view issues exactly
one rendering request for that view carrying exactly the cached ranges of
its document, performs no decode and leaves the state unchanged; if the
document has no cached ranges the event issues no request and is not an
error. -/
theorem visible_editors_reapply (st : World) (editor : Editor) :
    (∀ R, st.lastInactiveRanges editor.document = some R →
      onDidChangeVisibleTextEditors st [editor]
        = { state := st, requests := [{ editor := editor.id, ranges := R }],
            decodeCalls := 0 })
    ∧ (st.lastInactiveRanges editor.document = none →
      onDidChangeVisibleTextEditors st [editor]
        = { state := st, requests := [], decodeCalls := 0 }) := by
  constructor
  · intro R hR
    simp [onDidChangeVisibleTextEditors, applyInactiveRegions, hR]
  · intro hR
    simp [onDidChangeVisibleTextEditors, applyInactiveRegions, hR]

/-- Witness for C9: a view on a document with cached (empty) ranges gets
exactly one request. -/
theorem visible_editors_reapply_witness :
    onDidChangeVisibleTextEditors
        ⟨fun _ => none, fun d => if d = 0 then some [] else none, []⟩ [⟨5, 0⟩]
      = { state := ⟨fun _ => none, fun d => if d = 0 then some [] else none, []⟩,
          requests := [{ editor := 5, ranges := [] }], decodeCalls := 0 } :=
  (visible_editors_reapply _ ⟨5, 0⟩).1 [] rfl

/-- C10: `applyDelta` stamps the reconstructed buffer with the delta's
resultId and the remap preserves its input's resultId; after a processed
full payload the cache holds the payload itself (same resultId as the
returned remapped buffer), a delta whose previousResultId names the cached
resultId passes the cache-hit check (the handler proceeds to
reconstruction instead of returning the delta), and a successfully
reconstructed delta leaves the cache holding a buffer stamped with the
delta's resultId. -/
theorem resultId_threading :
    (∀ (prev : SemanticTokens) (delta : SemanticTokensEdits) (out : SemanticTokens),
        applyDelta prev delta = some out → out.resultId = delta.resultId)
    ∧ (∀ (cfg : TokenConfig) (tokens : SemanticTokens),
        (replaceInactiveRanges cfg tokens).resultId = tokens.resultId)
    ∧ (∀ (cfg : TokenConfig) (st : World) (document : Nat) (tokens : SemanticTokens),
        (provideDocumentSemanticTokens cfg st document tokens).1.state.lastTokens document
            = some tokens
        ∧ ((provideDocumentSemanticTokens cfg st document tokens).2).resultId
            = tokens.resultId)
    ∧ (∀ (cfg : TokenConfig) (st : World) (document : Nat) (rid : String)
        (prev : SemanticTokens) (delta : SemanticTokensEdits),
        st.lastTokens document = some prev → prev.resultId = some rid →
        provideDocumentSemanticTokensEdits cfg st document rid (Sum.inr delta)
          = (applyDelta prev delta).map (fun full =>
              ((provideDocumentSemanticTokens cfg st document full).1,
                Sum.inl (provideDocumentSemanticTokens cfg st document full).2)))
    ∧ (∀ (cfg : TokenConfig) (st : World) (document : Nat) (rid : String)
        (prev full : SemanticTokens) (delta : SemanticTokensEdits),
        st.lastTokens document = some prev → prev.resultId = some rid →
        applyDelta prev delta = some full →
        (provideDocumentSemanticTokensEdits cfg st document rid (Sum.inr delta)).map
            (fun r => r.1.state.lastTokens document)
          = some (some full)
        ∧ full.resultId = delta.resultId) := by
  have h1 : ∀ (prev : SemanticTokens) (delta : SemanticTokensEdits) (out : SemanticTokens),
      applyDelta prev delta = some out → out.resultId = delta.resultId := by
    intro prev delta out h
    unfold applyDelta at h
    dsimp only at h
    split at h
    · exact absurd h (by simp)
    · split at h
      · exact absurd h (by simp)
      · split at h
        · exact absurd h (by simp)
        · obtain rfl := Option.some.inj h
          rfl
  have h4 : ∀ (cfg : TokenConfig) (st : World) (document : Nat) (rid : String)
      (prev : SemanticTokens) (delta : SemanticTokensEdits),
      st.lastTokens document = some prev → prev.resultId = some rid →
      provideDocumentSemanticTokensEdits cfg st document rid (Sum.inr delta)
        = (applyDelta prev delta).map (fun full =>
            ((provideDocumentSemanticTokens cfg st document full).1,
              Sum.inl (provideDocumentSemanticTokens cfg st document full).2)) := by
    intro cfg st document rid prev delta hprev hrid
    simp only [provideDocumentSemanticTokensEdits, hprev]
    rw [if_neg (fun hc => hc hrid)]
    cases happ : applyDelta prev delta <;> simp [happ]
  refine ⟨h1, fun cfg tokens => rfl,
    fun cfg st document tokens => ⟨by simp [provideDocumentSemanticTokens], rfl⟩, h4, ?_⟩
  intro cfg st document rid prev full delta hprev hrid happ
  constructor
  · rw [h4 cfg st document rid prev delta hprev hrid, happ]
    simp [provideDocumentSemanticTokens]
  · exact h1 prev delta full happ

/-- Witness for C10: a delta against a cached buffer with matching
resultId is reconstructed and cached with the delta's resultId. -/
theorem resultId_threading_witness :
    (provideDocumentSemanticTokensEdits
        { inactiveCodeTokenTypeIndex := none, inactiveCodeTokenTypeReplaceIndex := none }
        ⟨fun d => if d = 0 then some ⟨some "p", []⟩ else none, fun _ => none, []⟩
        0 "p" (Sum.inr { resultId := some "q", edits := [] })).map
        (fun r => r.1.state.lastTokens 0)
      = some (some ⟨some "q", []⟩)
    ∧ (⟨some "q", ([] : List Nat)⟩ : SemanticTokens).resultId = some "q" :=
  resultId_threading.2.2.2.2
    { inactiveCodeTokenTypeIndex := none, inactiveCodeTokenTypeReplaceIndex := none }
    ⟨fun d => if d = 0 then some ⟨some "p", []⟩ else none, fun _ => none, []⟩
    0 "p" ⟨some "p", []⟩ ⟨some "q", []⟩ { resultId := some "q", edits := [] }
    rfl rfl (by decide)
